import Mathlib

/-!
# Verification of the data-redundancy-removal system

Shallow embedding of `redundancy_system_simple.py`:

* `DataValidator.generate_hash` normalizes a record (drop the `timestamp` key,
  stringify each remaining value, lower-case it, strip surrounding whitespace),
  serializes the normalized mapping with keys sorted lexicographically
  (`json.dumps(..., sort_keys=True)`), and hashes the serialization with
  SHA-256.  `json.dumps` is injective on string-to-string mappings with sorted
  distinct keys, and SHA-256 is a fixed deterministic function assumed
  collision-free by the spec ("cryptographic digest makes accidental collision
  negligible"), so the digest is modelled as the sorted list of normalized
  key/value pairs itself: two records get equal SHA-256 hex digests exactly
  when they get equal values of `generate_hash` below.
* Python `str.lower` / `str.strip` are modelled character-wise for ASCII
  (the alphabet of every record in the program).
* Dictionaries are modelled as association lists in insertion order; a
  candidate that is not a mapping at all (on which `.items()` raises) is the
  `PyObj.nonMapping` case.
-/

/-- A Python scalar value as used by the program: string, integer or boolean. -/
inductive PyValue where
  | str (s : String)
  | int (n : Int)
  | bool (b : Bool)
deriving DecidableEq

/-- Python `str(v)` on the scalars above (`str(True) = "True"`, `str(30) = "30"`). -/
def pyToStr : PyValue → String
  | .str s => s
  | .int n => toString n
  | .bool b => if b then "True" else "False"

/-- The ASCII whitespace characters removed by Python `str.strip()`. -/
def isPySpace (c : Char) : Bool :=
  c == ' ' || c == '\t' || c == '\n' || c == '\r' || c == '\x0b' || c == '\x0c'

/-- Python `str.lower` on one ASCII character. -/
def pyLowerChar (c : Char) : Char :=
  if 'A' ≤ c ∧ c ≤ 'Z' then Char.ofNat (c.toNat + 32) else c

/-- Python `str.lower` (ASCII fragment). -/
def pyLower (s : String) : String := ⟨s.data.map pyLowerChar⟩

/-- `l` with leading whitespace, then trailing whitespace, removed. -/
def pyStripList (l : List Char) : List Char :=
  (((l.dropWhile isPySpace).reverse.dropWhile isPySpace)).reverse

/-- Python `str.strip()`. -/
def pyStrip (s : String) : String := ⟨pyStripList s.data⟩

/-- `str(v).lower().strip()` — the normalization applied to each field value. -/
def normVal (v : PyValue) : String := pyStrip (pyLower (pyToStr v))

/-- A record: a Python dict in insertion order, field name to scalar value. -/
abbrev Record := List (String × PyValue)

/-- The field names of a record, in insertion order. -/
def recKeys (r : Record) : List String := r.map Prod.fst

/-- The dict comprehension in `generate_hash`:
`{k: str(v).lower().strip() for k, v in data.items() if k != 'timestamp'}`. -/
def normalize_data (data : Record) : List (String × String) :=
  (data.filter (fun p => p.1 != "timestamp")).map (fun p => (p.1, normVal p.2))

/-- Order on normalized pairs by field name: the order `sort_keys=True` uses. -/
def keyLE (p q : String × String) : Prop := p.1 ≤ q.1

instance : DecidableRel keyLE := fun p q => inferInstanceAs (Decidable (p.1 ≤ q.1))

instance : IsTotal (String × String) keyLE := ⟨fun p q => le_total p.1 q.1⟩

instance : IsTrans (String × String) keyLE := ⟨fun _ _ _ h h2 => le_trans h h2⟩

/-- `DataValidator.generate_hash`: the digest of a record, modelled as the
normalized mapping serialized with keys in ascending order (see the header:
`json.dumps` on this list is injective and SHA-256 is deterministic and
collision-free for the purposes of the spec, so list equality here coincides
with hex-digest equality in the source). -/
def generate_hash (data : Record) : List (String × String) :=
  List.insertionSort keyLE (normalize_data data)

/-- `DataValidator.is_duplicate`: digest comparison of two records. -/
def is_duplicate (new_data existing_data : Record) : Bool :=
  decide (generate_hash new_data = generate_hash existing_data)

/-- The three counters of a `RedundancyDetector` instance. -/
structure Counters where
  processed_count : Nat
  duplicate_count : Nat
  unique_count : Nat
deriving DecidableEq

/-- A freshly constructed `RedundancyDetector`'s counters. -/
def Counters.init : Counters := ⟨0, 0, 0⟩

/-- The `for existing_data in existing_data_list:` loop body of
`check_redundancy`: first stored record whose digest equals the candidate's. -/
def scanDup (new_data : Record) : List Record → Option Record
  | [] => none
  | e :: rest => if is_duplicate new_data e then some e else scanDup new_data rest

/-- `RedundancyDetector.check_redundancy` on a well-formed (mapping) candidate:
returns `(is_duplicate, matching_entry)` and the updated counters.  `processed`
is incremented on entry; `duplicate` on a match, `unique` otherwise. -/
def check_redundancy (st : Counters) (new_data : Record) (existing : List Record) :
    (Bool × Option Record) × Counters :=
  let st1 : Counters := { st with processed_count := st.processed_count + 1 }
  match scanDup new_data existing with
  | some e => ((true, some e), { st1 with duplicate_count := st1.duplicate_count + 1 })
  | none => ((false, none), { st1 with unique_count := st1.unique_count + 1 })

/-- A candidate as received by `check_redundancy`: a dict, or any non-mapping
object (on which `data.items()` inside `generate_hash` raises). -/
inductive PyObj where
  | mapping (r : Record)
  | nonMapping
deriving DecidableEq

/-- `generate_hash` on an arbitrary object: raises on a non-mapping. -/
def hashObj : PyObj → Except Unit (List (String × String))
  | .mapping r => .ok (generate_hash r)
  | .nonMapping => .error ()

/-- The scan loop of `check_redundancy` on an arbitrary candidate object:
each iteration calls `is_duplicate`, which hashes the candidate first and
raises there if it is not a mapping. -/
def scanDupObj (cand : PyObj) : List Record → Except Unit (Option Record)
  | [] => .ok none
  | e :: rest =>
    match hashObj cand with
    | .error _ => .error ()
    | .ok h => if h = generate_hash e then .ok (some e) else scanDupObj cand rest

/-- `RedundancyDetector.check_redundancy` on an arbitrary candidate object.
`self.processed_count += 1` runs before the scan, so the increment survives
even when the scan raises; the error propagates to the caller with the
counters as mutated so far. -/
def check_redundancy_obj (st : Counters) (cand : PyObj) (existing : List Record) :
    Except Unit (Bool × Option Record) × Counters :=
  let st1 : Counters := { st with processed_count := st.processed_count + 1 }
  match scanDupObj cand existing with
  | .error _ => (.error (), st1)
  | .ok (some e) => (.ok (true, some e), { st1 with duplicate_count := st1.duplicate_count + 1 })
  | .ok none => (.ok (false, none), { st1 with unique_count := st1.unique_count + 1 })

/-- Python dict item assignment `r[k] = v`: overwrite in place if the key
exists, otherwise append the new key at the end of the insertion order. -/
def dictSet (r : Record) (k : String) (v : PyValue) : Record :=
  if (r.map Prod.fst).contains k then
    r.map (fun p => if p.1 = k then (k, v) else p)
  else r ++ [(k, v)]

/-- The state of a `CloudDatabaseSimulator`: the store and its detector. -/
structure SimState where
  data_store : List Record
  detector : Counters
deriving DecidableEq

/-- A freshly constructed `CloudDatabaseSimulator`. -/
def SimState.init : SimState := ⟨[], Counters.init⟩

/-- The status and payload of the dict returned by `add_data`. -/
inductive AddResult where
  | added (id : String)
  | rejected (existing : Record)
deriving DecidableEq

/-- `CloudDatabaseSimulator.add_data`.  The wall-clock timestamp and the
generated UUID are inputs `ts`, `uid` (the code draws them from
`datetime.now()` and `uuid.uuid4()`).  Returns the result, the new state, and
the final contents of the caller-supplied dict, which the code mutates in
place (`new_data['timestamp'] = ...`, and on admission
`new_data['unique_id'] = ...`); the store receives a copy of that dict. -/
def add_data (st : SimState) (new_data : Record) (ts uid : String) :
    AddResult × SimState × Record :=
  let d1 := dictSet new_data "timestamp" (.str ts)
  match check_redundancy st.detector d1 st.data_store with
  | ((true, some e), counters) => (.rejected e, { st with detector := counters }, d1)
  | (_, counters) =>
    let d2 := dictSet d1 "unique_id" (.str uid)
    (.added uid, { data_store := st.data_store ++ [d2], detector := counters }, d2)

/-- Sequential `add_data` calls as in `main`: each input carries the record
together with the timestamp and UUID drawn during its call. -/
def runAddAll (st : SimState) : List (Record × String × String) → List AddResult × SimState
  | [] => ([], st)
  | (r, ts, uid) :: rest =>
    ((add_data st r ts uid).1 :: (runAddAll (add_data st r ts uid).2.1 rest).1,
     (runAddAll (add_data st r ts uid).2.1 rest).2)

/-- Sequential well-formed `check_redundancy` calls against one detector. -/
def runChecks (st : Counters) : List (Record × List Record) → Counters
  | [] => st
  | (c, ex) :: rest => runChecks (check_redundancy st c ex).2 rest

/-- Every character of `l` is Python whitespace. -/
abbrev allSpace (l : List Char) : Prop := ∀ c ∈ l, isPySpace c = true

/-- `a` and `b` are the same character up to letter case. -/
abbrev lowerEq (a b : Char) : Prop := pyLowerChar a = pyLowerChar b

/-- The optional character `o`, when present, is not whitespace. -/
abbrev notSpaceAt (o : Option Char) : Prop := ∀ c, o = some c → isPySpace c = false

instance : (o : Option Char) → Decidable (notSpaceAt o)
  | none => isTrue fun _ h => nomatch h
  | some a =>
    if h : isPySpace a = false then
      isTrue fun c hc => by cases hc; exact h
    else isFalse fun hall => h (hall a rfl)

/-- `l` neither starts nor ends with whitespace. -/
abbrev trimmedCore (l : List Char) : Prop :=
  notSpaceAt l.head? ∧ notSpaceAt l.reverse.head?

/-- Decision procedure for `List.Forall₂` over a decidable relation. -/
def decForallTwo {R : Char → Char → Prop} [DecidableRel R] :
    (l1 l2 : List Char) → Decidable (List.Forall₂ R l1 l2)
  | [], [] => isTrue List.Forall₂.nil
  | [], _ :: _ => isFalse fun h => nomatch h
  | _ :: _, [] => isFalse fun h => nomatch h
  | a :: l1, b :: l2 =>
    match decForallTwo l1 l2, inferInstanceAs (Decidable (R a b)) with
    | isTrue ht, isTrue hr => isTrue (List.Forall₂.cons hr ht)
    | isFalse hf, _ => isFalse fun h => by cases h with | cons h1 h2 => exact hf h2
    | isTrue _, isFalse hf => isFalse fun h => by cases h with | cons h1 h2 => exact hf h1

instance {R : Char → Char → Prop} [DecidableRel R] (l1 l2 : List Char) :
    Decidable (List.Forall₂ R l1 l2) := decForallTwo l1 l2

/-- Strict variant of `keyLE`, used to compare sorted serializations. -/
def keyLT (p q : String × String) : Prop := p.1 < q.1

instance : IsAntisymm (String × String) keyLT :=
  ⟨fun _ _ h1 h2 => absurd h1 (lt_asymm h2)⟩

/-- `t` is obtained from `s` by changing only the letter case of characters
and the leading/trailing whitespace: both decompose into whitespace margins
around cores that agree character-by-character up to case. -/
def caseWsVariant (s t : String) : Prop :=
  ∃ w1 c1 z1 w2 c2 z2 : List Char,
    s.data = w1 ++ (c1 ++ z1) ∧ t.data = w2 ++ (c2 ++ z2) ∧
    allSpace w1 ∧ allSpace z1 ∧ allSpace w2 ∧ allSpace z2 ∧
    trimmedCore c1 ∧ trimmedCore c2 ∧ List.Forall₂ lowerEq c1 c2

/-- The six literal demo records of `main` (section 8 of the spec). -/
def demo_records : List Record :=
  [ [("name", .str "John Doe"), ("email", .str "john@example.com"),
     ("age", .int 30), ("city", .str "New York")],
    [("name", .str "John Doe"), ("email", .str "john@example.com"),
     ("age", .int 30), ("city", .str "New York")],
    [("name", .str "john doe"), ("email", .str "JOHN@example.com"),
     ("age", .int 30), ("city", .str "New York")],
    [("name", .str "Jane Smith"), ("email", .str "jane@example.com"),
     ("age", .int 25), ("city", .str "London")],
    [("name", .str "John Doe"), ("email", .str "john@example.com"),
     ("age", .int 30), ("city", .str "Boston")],
    [("name", .str "Jane Smith"), ("email", .str "jane@example.com"),
     ("age", .int 25), ("city", .str "London")] ]

/-! ## Character- and string-level lemmas about the normalization -/

theorem isPySpace_cases {c : Char} (h : isPySpace c = true) :
    c = ' ' ∨ c = '\t' ∨ c = '\n' ∨ c = '\r' ∨ c = '\x0b' ∨ c = '\x0c' := by
  simp only [isPySpace, Bool.or_eq_true, beq_iff_eq] at h
  tauto

theorem lowerChar_of_space {c : Char} (h : isPySpace c = true) : pyLowerChar c = c := by
  rcases isPySpace_cases h with h | h | h | h | h | h <;> subst h <;> decide

theorem isPySpace_ofNat_lower {n : Nat} (h1 : 65 ≤ n) (h2 : n ≤ 90) :
    isPySpace (Char.ofNat (n + 32)) = false := by
  interval_cases n <;> decide

theorem lowerChar_not_space {c : Char} (h : isPySpace c = false) :
    isPySpace (pyLowerChar c) = false := by
  unfold pyLowerChar
  split
  · next hc =>
    obtain ⟨h1, h2⟩ := hc
    rw [Char.le_def] at h1 h2
    exact isPySpace_ofNat_lower h1 h2
  · exact h

theorem map_lower_allSpace {w : List Char} (hw : allSpace w) : w.map pyLowerChar = w := by
  induction w with
  | nil => rfl
  | cons a t ih =>
    rw [List.map_cons, lowerChar_of_space (hw a (List.mem_cons_self a t)),
      ih (fun c hc => hw c (List.mem_cons_of_mem a hc))]

theorem dropWhile_append_allSpace {w : List Char} (hw : allSpace w) (r : List Char) :
    (w ++ r).dropWhile isPySpace = r.dropWhile isPySpace := by
  induction w with
  | nil => rfl
  | cons a t ih =>
    rw [List.cons_append, List.dropWhile_cons_of_pos (hw a (List.mem_cons_self a t))]
    exact ih (fun c hc => hw c (List.mem_cons_of_mem a hc))

theorem dropWhile_allSpace {w : List Char} (hw : allSpace w) :
    w.dropWhile isPySpace = [] := by
  have h := dropWhile_append_allSpace hw []
  simpa using h

theorem allSpace_reverse {z : List Char} (hz : allSpace z) : allSpace z.reverse :=
  fun c hc => hz c (List.mem_reverse.mp hc)

theorem pyStripList_decomp {w c z : List Char} (hw : allSpace w) (hz : allSpace z)
    (hc : trimmedCore c) : pyStripList (w ++ (c ++ z)) = c := by
  obtain ⟨hhead, hlast⟩ := hc
  cases c with
  | nil =>
    unfold pyStripList
    rw [List.nil_append, dropWhile_append_allSpace hw, dropWhile_allSpace hz]
    rfl
  | cons a t =>
    have ha : isPySpace a = false := hhead a rfl
    unfold pyStripList
    rw [dropWhile_append_allSpace hw, List.cons_append,
      List.dropWhile_cons_of_neg (by simp [ha]), ← List.cons_append, List.reverse_append,
      dropWhile_append_allSpace (allSpace_reverse hz)]
    cases hrev : (a :: t).reverse with
    | nil => exact absurd hrev (by simp)
    | cons b t2 =>
      have hb : isPySpace b = false := hlast b (by rw [hrev]; rfl)
      rw [List.dropWhile_cons_of_neg (by simp [hb]), ← hrev, List.reverse_reverse]

theorem map_lower_forallTwo {c1 c2 : List Char} (h : List.Forall₂ lowerEq c1 c2) :
    c1.map pyLowerChar = c2.map pyLowerChar := by
  induction h with
  | nil => rfl
  | cons h1 h2 ih => rw [List.map_cons, List.map_cons, h1, ih]

theorem trimmedCore_map_lower {c : List Char} (hc : trimmedCore c) :
    trimmedCore (c.map pyLowerChar) := by
  obtain ⟨h1, h2⟩ := hc
  constructor
  · intro d hd
    rw [List.head?_map] at hd
    cases hh : c.head? with
    | none => rw [hh] at hd; exact nomatch hd
    | some a =>
      rw [hh, Option.map_some'] at hd
      obtain rfl := Option.some.inj hd
      exact lowerChar_not_space (h1 a hh)
  · intro d hd
    rw [← List.map_reverse, List.head?_map] at hd
    cases hh : c.reverse.head? with
    | none => rw [hh] at hd; exact nomatch hd
    | some a =>
      rw [hh, Option.map_some'] at hd
      obtain rfl := Option.some.inj hd
      exact lowerChar_not_space (h2 a hh)

theorem pyNorm_caseWs {s t : String} (h : caseWsVariant s t) :
    pyStrip (pyLower s) = pyStrip (pyLower t) := by
  obtain ⟨w1, c1, z1, w2, c2, z2, hs, ht, hw1, hz1, hw2, hz2, hc1, hc2, hf⟩ := h
  have e1 : pyStripList (s.data.map pyLowerChar) = c1.map pyLowerChar := by
    rw [hs, List.map_append, List.map_append, map_lower_allSpace hw1, map_lower_allSpace hz1,
      pyStripList_decomp hw1 hz1 (trimmedCore_map_lower hc1)]
  have e2 : pyStripList (t.data.map pyLowerChar) = c2.map pyLowerChar := by
    rw [ht, List.map_append, List.map_append, map_lower_allSpace hw2, map_lower_allSpace hz2,
      pyStripList_decomp hw2 hz2 (trimmedCore_map_lower hc2)]
  show (⟨pyStripList (s.data.map pyLowerChar)⟩ : String) = ⟨pyStripList (t.data.map pyLowerChar)⟩
  rw [e1, e2, map_lower_forallTwo hf]

/-- `normVal` only depends on a value through its normalized string. -/
theorem normVal_caseWs {v v' : PyValue} (h : caseWsVariant (pyToStr v) (pyToStr v')) :
    normVal v = normVal v' :=
  pyNorm_caseWs h

/-! ## The digest as a function of the normalized mapping -/

theorem normalize_data_congr {r r' : Record}
    (h : List.Forall₂
      (fun p q => p.1 = q.1 ∧ (p.1 = "timestamp" ∨ normVal p.2 = normVal q.2)) r r') :
    normalize_data r = normalize_data r' := by
  induction h with
  | nil => rfl
  | @cons a b l1 l2 h1 h2 ih =>
    obtain ⟨hk, hv⟩ := h1
    by_cases hts : a.1 = "timestamp"
    · have ha : (a.1 != "timestamp") = false := by simp [hts]
      have hb : (b.1 != "timestamp") = false := by simp [← hk, hts]
      simp only [normalize_data, List.filter_cons, ha, hb, Bool.false_eq_true, if_false]
      exact ih
    · have hv2 := hv.resolve_left hts
      have ha : (a.1 != "timestamp") = true := by simp [hts]
      have hb : (b.1 != "timestamp") = true := by simp [← hk, hts]
      simp only [normalize_data, List.filter_cons, ha, hb, if_true, List.map_cons]
      rw [hk, hv2]
      exact congrArg (List.cons (b.1, normVal b.2)) ih

theorem generate_hash_congr {r r' : Record}
    (h : List.Forall₂
      (fun p q => p.1 = q.1 ∧ (p.1 = "timestamp" ∨ normVal p.2 = normVal q.2)) r r') :
    generate_hash r = generate_hash r' := by
  unfold generate_hash
  rw [normalize_data_congr h]

/-- The field names occurring in a digest are exactly the record's
non-`timestamp` field names. -/
theorem mem_hashKeys {r : Record} {k : String} :
    k ∈ (generate_hash r).map Prod.fst ↔ (k ∈ recKeys r ∧ k ≠ "timestamp") := by
  unfold generate_hash
  rw [List.Perm.mem_iff ((List.perm_insertionSort keyLE (normalize_data r)).map Prod.fst)]
  unfold normalize_data recKeys
  simp only [List.map_map, List.mem_map, List.mem_filter, Function.comp, bne_iff_ne, ne_eq]
  constructor
  · rintro ⟨p, ⟨hp, hne⟩, rfl⟩
    exact ⟨⟨p, hp, rfl⟩, hne⟩
  · rintro ⟨⟨p, hp, rfl⟩, hne⟩
    exact ⟨p, ⟨hp, hne⟩, rfl⟩

/-- Records with equal digests have the same non-`timestamp` field names. -/
theorem hash_eq_key_mem {r r' : Record} (h : generate_hash r = generate_hash r')
    {k : String} (hk : k ≠ "timestamp") : k ∈ recKeys r ↔ k ∈ recKeys r' := by
  constructor <;> intro hm
  · have hmem := mem_hashKeys.mpr ⟨hm, hk⟩
    rw [h] at hmem
    exact (mem_hashKeys.mp hmem).1
  · have hmem := mem_hashKeys.mpr ⟨hm, hk⟩
    rw [← h] at hmem
    exact (mem_hashKeys.mp hmem).1

/-! ## Detector lemmas -/

theorem scanDup_no_match {cand : Record} {l1 : List Record}
    (h : ∀ e ∈ l1, generate_hash cand ≠ generate_hash e) (rest : List Record) :
    scanDup cand (l1 ++ rest) = scanDup cand rest := by
  induction l1 with
  | nil => rfl
  | cons e t ih =>
    have hd : is_duplicate cand e = false := by
      simp only [is_duplicate, decide_eq_false_iff_not]
      exact h e (List.mem_cons_self e t)
    simp only [List.cons_append, scanDup, hd, Bool.false_eq_true, if_false]
    exact ih fun e' he' => h e' (List.mem_cons_of_mem e he')

theorem scanDup_first_match {cand c : Record} {l1 : List Record}
    (h : ∀ e ∈ l1, generate_hash cand ≠ generate_hash e)
    (hm : generate_hash cand = generate_hash c) (l2 : List Record) :
    scanDup cand (l1 ++ (c :: l2)) = some c := by
  rw [scanDup_no_match h]
  simp [scanDup, is_duplicate, hm]

theorem scanDup_none {cand : Record} {ex : List Record}
    (h : ∀ e ∈ ex, generate_hash cand ≠ generate_hash e) :
    scanDup cand ex = none := by
  have hs := scanDup_no_match h []
  simpa using hs

theorem check_redundancy_eq_match {st : Counters} {cand e : Record} {ex : List Record}
    (h : scanDup cand ex = some e) :
    check_redundancy st cand ex =
      ((true, some e),
       ⟨st.processed_count + 1, st.duplicate_count + 1, st.unique_count⟩) := by
  simp [check_redundancy, h]

theorem check_redundancy_eq_none {st : Counters} {cand : Record} {ex : List Record}
    (h : scanDup cand ex = none) :
    check_redundancy st cand ex =
      ((false, none),
       ⟨st.processed_count + 1, st.duplicate_count, st.unique_count + 1⟩) := by
  simp [check_redundancy, h]

theorem check_redundancy_counters (st : Counters) (cand : Record) (ex : List Record) :
    (check_redundancy st cand ex).2.processed_count = st.processed_count + 1 ∧
    (((check_redundancy st cand ex).2.duplicate_count = st.duplicate_count + 1 ∧
      (check_redundancy st cand ex).2.unique_count = st.unique_count) ∨
     ((check_redundancy st cand ex).2.unique_count = st.unique_count + 1 ∧
      (check_redundancy st cand ex).2.duplicate_count = st.duplicate_count)) := by
  cases h : scanDup cand ex with
  | none => rw [check_redundancy_eq_none h]; exact ⟨rfl, Or.inr ⟨rfl, rfl⟩⟩
  | some e => rw [check_redundancy_eq_match h]; exact ⟨rfl, Or.inl ⟨rfl, rfl⟩⟩

theorem runChecks_counts (calls : List (Record × List Record)) : ∀ st : Counters,
    (runChecks st calls).processed_count = st.processed_count + calls.length ∧
    (runChecks st calls).duplicate_count + (runChecks st calls).unique_count
      = st.duplicate_count + st.unique_count + calls.length := by
  induction calls with
  | nil => intro st; exact ⟨rfl, rfl⟩
  | cons hd tl ih =>
    intro st
    obtain ⟨c, ex⟩ := hd
    simp only [runChecks, List.length_cons]
    obtain ⟨h1, h2⟩ := ih (check_redundancy st c ex).2
    obtain ⟨hp, hdu⟩ := check_redundancy_counters st c ex
    constructor
    · omega
    · rcases hdu with ⟨hd1, hd2⟩ | ⟨hd1, hd2⟩ <;> omega

/-! ## Dict-mutation and simulator lemmas -/

theorem recKeys_dictSet_of_contains {r : Record} {k : String} (v : PyValue)
    (h : (r.map Prod.fst).contains k = true) : recKeys (dictSet r k v) = recKeys r := by
  unfold dictSet recKeys
  rw [if_pos h, List.map_map]
  apply List.map_congr_left
  intro p _
  by_cases hpk : p.1 = k
  · simp [Function.comp, hpk]
  · simp [Function.comp, hpk]

theorem mem_recKeys_dictSet_iff {r : Record} {k k' : String} {v : PyValue} :
    k' ∈ recKeys (dictSet r k v) ↔ (k' ∈ recKeys r ∨ k' = k) := by
  by_cases h : (r.map Prod.fst).contains k = true
  · rw [recKeys_dictSet_of_contains v h]
    have hk : k ∈ recKeys r := by simpa [recKeys] using h
    constructor
    · exact Or.inl
    · rintro (hm | rfl)
      exacts [hm, hk]
  · unfold dictSet recKeys
    rw [if_neg h, List.map_append]
    simp

theorem mem_recKeys_dictSet_self {r : Record} {k : String} {v : PyValue} :
    k ∈ recKeys (dictSet r k v) :=
  mem_recKeys_dictSet_iff.mpr (Or.inr rfl)

theorem mem_recKeys_dictSet_of_mem {r : Record} {k k' : String} {v : PyValue}
    (h : k' ∈ recKeys r) : k' ∈ recKeys (dictSet r k v) :=
  mem_recKeys_dictSet_iff.mpr (Or.inl h)

theorem add_data_of_unique {st : SimState} {r : Record} {ts uid : String}
    (h : scanDup (dictSet r "timestamp" (.str ts)) st.data_store = none) :
    add_data st r ts uid =
      (.added uid,
       ⟨st.data_store ++ [dictSet (dictSet r "timestamp" (.str ts)) "unique_id" (.str uid)],
        ⟨st.detector.processed_count + 1, st.detector.duplicate_count,
         st.detector.unique_count + 1⟩⟩,
       dictSet (dictSet r "timestamp" (.str ts)) "unique_id" (.str uid)) := by
  simp only [add_data, check_redundancy_eq_none h]

theorem add_data_of_dup {st : SimState} {r e : Record} {ts uid : String}
    (h : scanDup (dictSet r "timestamp" (.str ts)) st.data_store = some e) :
    add_data st r ts uid =
      (.rejected e,
       ⟨st.data_store,
        ⟨st.detector.processed_count + 1, st.detector.duplicate_count + 1,
         st.detector.unique_count⟩⟩,
       dictSet r "timestamp" (.str ts)) := by
  simp only [add_data, check_redundancy_eq_match h]

/-! ## Sorting a permuted mapping with distinct keys -/

theorem insertionSort_eq_of_perm {l1 l2 : List (String × String)}
    (hp : l1.Perm l2) (hnd : (l1.map Prod.fst).Nodup) :
    List.insertionSort keyLE l1 = List.insertionSort keyLE l2 := by
  have hp2 : (List.insertionSort keyLE l1).Perm (List.insertionSort keyLE l2) :=
    ((List.perm_insertionSort keyLE l1).trans hp).trans (List.perm_insertionSort keyLE l2).symm
  have hnd1 : ((List.insertionSort keyLE l1).map Prod.fst).Nodup :=
    ((List.perm_insertionSort keyLE l1).map Prod.fst).nodup_iff.mpr hnd
  have hnd2 : ((List.insertionSort keyLE l2).map Prod.fst).Nodup :=
    (hp2.map Prod.fst).nodup_iff.mp hnd1
  have hs1 : List.Sorted keyLE (List.insertionSort keyLE l1) :=
    List.sorted_insertionSort keyLE l1
  have hs2 : List.Sorted keyLE (List.insertionSort keyLE l2) :=
    List.sorted_insertionSort keyLE l2
  have hlt1 : List.Pairwise keyLT (List.insertionSort keyLE l1) :=
    (hs1.and (List.pairwise_map.mp hnd1)).imp fun h => lt_of_le_of_ne h.1 h.2
  have hlt2 : List.Pairwise keyLT (List.insertionSort keyLE l2) :=
    (hs2.and (List.pairwise_map.mp hnd2)).imp fun h => lt_of_le_of_ne h.1 h.2
  exact List.eq_of_perm_of_sorted hp2 hlt1 hlt2

theorem nodup_keys_normalize {r : Record} (h : (recKeys r).Nodup) :
    ((normalize_data r).map Prod.fst).Nodup := by
  unfold normalize_data
  rw [List.map_map]
  have he : ((r.filter fun p => p.1 != "timestamp").map
      (Prod.fst ∘ fun p => (p.1, normVal p.2)))
      = (r.filter fun p => p.1 != "timestamp").map Prod.fst :=
    List.map_congr_left fun p _ => rfl
  rw [he]
  exact h.sublist ((List.filter_sublist r).map Prod.fst)

/-! ## A run in which nothing is ever flagged as duplicate -/

theorem runAddAll_all_unique (inputs : List (Record × String × String)) :
    ∀ (store : List Record) (p d u : Nat),
    (∀ t ∈ inputs, "unique_id" ∉ recKeys t.1) →
    (∀ e ∈ store, "unique_id" ∈ recKeys e) →
    (runAddAll ⟨store, p, d, u⟩ inputs).1 = inputs.map (fun t => AddResult.added t.2.2) ∧
    (runAddAll ⟨store, p, d, u⟩ inputs).2.detector = ⟨p + inputs.length, d, u + inputs.length⟩ ∧
    (runAddAll ⟨store, p, d, u⟩ inputs).2.data_store.length = store.length + inputs.length := by
  induction inputs with
  | nil => intro store p d u _ _; exact ⟨rfl, rfl, rfl⟩
  | cons t tl ih =>
    intro store p d u hin hst
    obtain ⟨r, ts, uid⟩ := t
    have hd1 : "unique_id" ∉ recKeys (dictSet r "timestamp" (.str ts)) := by
      rw [mem_recKeys_dictSet_iff]
      rintro (hm | he)
      · exact hin (r, ts, uid) (List.mem_cons_self _ _) hm
      · exact absurd he (by decide)
    have hscan : scanDup (dictSet r "timestamp" (.str ts)) store = none := by
      apply scanDup_none
      intro e he hcontra
      exact hd1 ((hash_eq_key_mem hcontra (by decide)).mpr (hst e he))
    have hst' : ∀ e ∈ store ++
        [dictSet (dictSet r "timestamp" (.str ts)) "unique_id" (.str uid)],
        "unique_id" ∈ recKeys e := by
      intro e he
      rcases List.mem_append.mp he with he | he
      · exact hst e he
      · rw [List.mem_singleton] at he
        subst he
        exact mem_recKeys_dictSet_self
    obtain ⟨ih1, ih2, ih3⟩ :=
      ih (store ++ [dictSet (dictSet r "timestamp" (.str ts)) "unique_id" (.str uid)])
        (p + 1) d (u + 1) (fun t ht => hin t (List.mem_cons_of_mem _ ht)) hst'
    simp only [runAddAll, @add_data_of_unique ⟨store, p, d, u⟩ r ts uid hscan, List.length_cons]
    refine ⟨?_, ?_, ?_⟩
    · simp only [List.map_cons]
      rw [ih1]
    · rw [ih2]
      simp only [Counters.mk.injEq]
      exact ⟨by omega, trivial, by omega⟩
    · rw [ih3]
      simp only [List.length_append, List.length_cons, List.length_nil]
      omega

/-! ## The claims -/

/-- C1, counterexample: the code excludes only `timestamp` from the digest,
not `unique_id` — two records that differ only in their `unique_id` value get
different digests, refuting the claim as stated. -/
theorem C1_metadata_exclusion_counterexample :
    generate_hash [("unique_id", PyValue.str "a")]
      ≠ generate_hash [("unique_id", PyValue.str "b")] := by decide

/-- C1 (amended): two records that agree field-by-field except possibly in the
value of the `timestamp` field produce equal digests; `timestamp` is the only
field name `generate_hash` excludes. -/
theorem C1_metadata_exclusion_amended (r r' : Record)
    (h : List.Forall₂ (fun p q => p.1 = q.1 ∧ (p.1 = "timestamp" ∨ p.2 = q.2)) r r') :
    generate_hash r = generate_hash r' :=
  generate_hash_congr (h.imp fun _ _ hpq => ⟨hpq.1, hpq.2.imp id fun hv => by rw [hv]⟩)

/-- C1 witness: a concrete pair differing only in `timestamp`. -/
theorem C1_metadata_exclusion_witness :
    List.Forall₂ (fun (p q : String × PyValue) => p.1 = q.1 ∧ (p.1 = "timestamp" ∨ p.2 = q.2))
      [("name", PyValue.str "x"), ("timestamp", PyValue.str "morning")]
      [("name", PyValue.str "x"), ("timestamp", PyValue.str "evening")] ∧
    generate_hash [("name", PyValue.str "x"), ("timestamp", PyValue.str "morning")]
      = generate_hash [("name", PyValue.str "x"), ("timestamp", PyValue.str "evening")] := by
  have hf : List.Forall₂
      (fun (p q : String × PyValue) => p.1 = q.1 ∧ (p.1 = "timestamp" ∨ p.2 = q.2))
      [("name", PyValue.str "x"), ("timestamp", PyValue.str "morning")]
      [("name", PyValue.str "x"), ("timestamp", PyValue.str "evening")] :=
    List.Forall₂.cons ⟨rfl, Or.inr rfl⟩ (List.Forall₂.cons ⟨rfl, Or.inl rfl⟩ List.Forall₂.nil)
  exact ⟨hf, C1_metadata_exclusion_amended _ _ hf⟩

/-- C2: evaluating `main`'s six demo records through `add_data` on a fresh
simulator — for every choice of timestamps and UUIDs — admits all six records
and ends with counters processed 6, duplicates 0, unique 6 and six stored
records.  The spec's scenario (three rejections, counters 6/3/3) does not
happen: stored records carry the `unique_id` field, which `generate_hash`
does not exclude, so no candidate digest ever matches a stored digest. -/
theorem C2_demo_run_all_admitted (ts1 ts2 ts3 ts4 ts5 ts6 u1 u2 u3 u4 u5 u6 : String) :
    (runAddAll SimState.init (demo_records.zip
        [(ts1, u1), (ts2, u2), (ts3, u3), (ts4, u4), (ts5, u5), (ts6, u6)])).1
      = [.added u1, .added u2, .added u3, .added u4, .added u5, .added u6] ∧
    (runAddAll SimState.init (demo_records.zip
        [(ts1, u1), (ts2, u2), (ts3, u3), (ts4, u4), (ts5, u5), (ts6, u6)])).2.detector
      = ⟨6, 0, 6⟩ ∧
    (runAddAll SimState.init (demo_records.zip
        [(ts1, u1), (ts2, u2), (ts3, u3), (ts4, u4), (ts5, u5), (ts6, u6)])).2.data_store.length
      = 6 := by
  have hdemo : ∀ rec ∈ demo_records, "unique_id" ∉ recKeys rec := by decide
  have hin : ∀ t ∈ demo_records.zip
      [(ts1, u1), (ts2, u2), (ts3, u3), (ts4, u4), (ts5, u5), (ts6, u6)],
      "unique_id" ∉ recKeys t.1 := by
    intro t ht
    obtain ⟨r, meta⟩ := t
    exact hdemo r (List.of_mem_zip ht).1
  have hst : ∀ e ∈ ([] : List Record), "unique_id" ∈ recKeys e := by
    intro e he
    exact absurd he (List.not_mem_nil e)
  obtain ⟨h1, h2, h3⟩ := runAddAll_all_unique
    (demo_records.zip [(ts1, u1), (ts2, u2), (ts3, u3), (ts4, u4), (ts5, u5), (ts6, u6)])
    [] 0 0 0 hin hst
  have hinit : SimState.init = (⟨[], 0, 0, 0⟩ : SimState) := rfl
  refine ⟨?_, ?_, ?_⟩
  · rw [hinit, h1]
    rfl
  · rw [hinit, h2]
    rfl
  · rw [hinit, h3]
    rfl

/-- C3, counterexample: calling `check_redundancy` with a non-mapping
candidate and a nonempty store raises, but the counters have already been
mutated (`processed` is incremented before the scan) — refuting the claim that
a failed call leaves all three counters untouched. -/
theorem C3_error_atomicity_counterexample :
    (check_redundancy_obj ⟨0, 0, 0⟩ PyObj.nonMapping [[]]).1 = Except.error () ∧
    (check_redundancy_obj ⟨0, 0, 0⟩ PyObj.nonMapping [[]]).2 ≠ (⟨0, 0, 0⟩ : Counters) :=
  ⟨rfl, by decide⟩

/-- C3 (amended): with a non-mapping candidate and a nonempty store the call
fails with an error, after having incremented `processed` by one (`duplicate`
and `unique` unchanged); with an empty store the call does not fail at all and
counts the candidate as processed and unique. -/
theorem C3_error_atomicity_amended :
    (∀ (st : Counters) (e : Record) (rest : List Record),
      check_redundancy_obj st PyObj.nonMapping (e :: rest)
        = (Except.error (), ⟨st.processed_count + 1, st.duplicate_count, st.unique_count⟩)) ∧
    (∀ st : Counters,
      check_redundancy_obj st PyObj.nonMapping []
        = (Except.ok (false, none),
           ⟨st.processed_count + 1, st.duplicate_count, st.unique_count + 1⟩)) :=
  ⟨fun _ _ _ => rfl, fun _ => rfl⟩

/-- C4: counter consistency — after any sequence of n completed well-formed
`check_redundancy` calls on a fresh detector, `processed = n` and
`duplicate + unique = processed`; each call increments `processed` by exactly
one and exactly one of `duplicate`/`unique` by exactly one, and no counter
ever decreases. -/
theorem C4_counter_consistency :
    (∀ calls : List (Record × List Record),
      (runChecks Counters.init calls).processed_count = calls.length ∧
      (runChecks Counters.init calls).duplicate_count
          + (runChecks Counters.init calls).unique_count
        = (runChecks Counters.init calls).processed_count) ∧
    (∀ (st : Counters) (cand : Record) (ex : List Record),
      (check_redundancy st cand ex).2.processed_count = st.processed_count + 1 ∧
      (((check_redundancy st cand ex).2.duplicate_count = st.duplicate_count + 1 ∧
        (check_redundancy st cand ex).2.unique_count = st.unique_count) ∨
       ((check_redundancy st cand ex).2.unique_count = st.unique_count + 1 ∧
        (check_redundancy st cand ex).2.duplicate_count = st.duplicate_count)) ∧
      st.processed_count ≤ (check_redundancy st cand ex).2.processed_count ∧
      st.duplicate_count ≤ (check_redundancy st cand ex).2.duplicate_count ∧
      st.unique_count ≤ (check_redundancy st cand ex).2.unique_count) := by
  constructor
  · intro calls
    obtain ⟨h1, h2⟩ := runChecks_counts calls Counters.init
    simp only [Counters.init] at h1 h2 ⊢
    exact ⟨by omega, by omega⟩
  · intro st cand ex
    obtain ⟨hp, hdu⟩ := check_redundancy_counters st cand ex
    refine ⟨hp, hdu, ?_, ?_, ?_⟩ <;> rcases hdu with ⟨h1, h2⟩ | ⟨h1, h2⟩ <;> omega

/-- C5: first-match order — if the store decomposes as a prefix of records
whose digests differ from the candidate's followed by a matching record `c`,
`check_redundancy` reports `(true, c)`; with no matching record anywhere it
reports `(false, none)`. -/
theorem C5_first_match_order :
    (∀ (st : Counters) (cand c : Record) (l1 l2 : List Record),
      (∀ e ∈ l1, generate_hash cand ≠ generate_hash e) →
      generate_hash cand = generate_hash c →
      (check_redundancy st cand (l1 ++ (c :: l2))).1 = (true, some c)) ∧
    (∀ (st : Counters) (cand : Record) (ex : List Record),
      (∀ e ∈ ex, generate_hash cand ≠ generate_hash e) →
      (check_redundancy st cand ex).1 = (false, none)) := by
  constructor
  · intro st cand c l1 l2 h hm
    rw [check_redundancy_eq_match (scanDup_first_match h hm l2)]
  · intro st cand ex h
    rw [check_redundancy_eq_none (scanDup_none h)]

/-- C5 witness: a store with a non-matching head and two records matching the
candidate; the earlier of the two is returned. -/
theorem C5_first_match_order_witness :
    (∀ e ∈ [[(("a" : String), PyValue.str "y")]],
      generate_hash [("a", PyValue.str "x")] ≠ generate_hash e) ∧
    generate_hash [("a", PyValue.str "x")] = generate_hash [("a", PyValue.str " X ")] ∧
    (check_redundancy Counters.init [("a", PyValue.str "x")]
        ([[("a", PyValue.str "y")]]
          ++ ([("a", PyValue.str " X ")] :: [[("a", PyValue.str "x")]]))).1
      = (true, some [("a", PyValue.str " X ")]) :=
  ⟨by decide, by decide,
   C5_first_match_order.1 Counters.init [("a", PyValue.str "x")] [("a", PyValue.str " X ")]
     [[("a", PyValue.str "y")]] [[("a", PyValue.str "x")]] (by decide) (by decide)⟩

/-- C6: case/whitespace invariance — records that agree field-by-field, with
each content value changed only in letter case or leading/trailing whitespace
(the `timestamp` value arbitrary), produce equal digests. -/
theorem C6_case_whitespace_invariance (r r' : Record)
    (h : List.Forall₂ (fun p q => p.1 = q.1 ∧
      (p.1 = "timestamp" ∨ caseWsVariant (pyToStr p.2) (pyToStr q.2))) r r') :
    generate_hash r = generate_hash r' :=
  generate_hash_congr (h.imp fun _ _ hpq => ⟨hpq.1, hpq.2.imp id normVal_caseWs⟩)

/-- C6 witness: `"John Doe"` and `"  john DOE "` collide. -/
theorem C6_case_whitespace_invariance_witness :
    List.Forall₂ (fun (p q : String × PyValue) => p.1 = q.1 ∧
      (p.1 = "timestamp" ∨ caseWsVariant (pyToStr p.2) (pyToStr q.2)))
      [("name", PyValue.str "John Doe")] [("name", PyValue.str "  john DOE ")] ∧
    generate_hash [("name", PyValue.str "John Doe")]
      = generate_hash [("name", PyValue.str "  john DOE ")] := by
  have hcw : caseWsVariant (pyToStr (PyValue.str "John Doe"))
      (pyToStr (PyValue.str "  john DOE ")) :=
    ⟨[], "John Doe".data, [], [' ', ' '], "john DOE".data, [' '],
     by decide, by decide, by decide, by decide, by decide, by decide,
     by decide, by decide, by decide⟩
  have hf : List.Forall₂ (fun (p q : String × PyValue) => p.1 = q.1 ∧
      (p.1 = "timestamp" ∨ caseWsVariant (pyToStr p.2) (pyToStr q.2)))
      [("name", PyValue.str "John Doe")] [("name", PyValue.str "  john DOE ")] :=
    List.Forall₂.cons ⟨rfl, Or.inr hcw⟩ List.Forall₂.nil
  exact ⟨hf, C6_case_whitespace_invariance _ _ hf⟩

/-- C7: field-order independence — permuting the fields of a record (with
distinct field names, as in a Python dict) leaves the digest unchanged. -/
theorem C7_field_order_independence (r r' : Record) (hperm : r.Perm r')
    (hnd : (recKeys r).Nodup) : generate_hash r = generate_hash r' := by
  unfold generate_hash
  apply insertionSort_eq_of_perm
  · unfold normalize_data
    exact (hperm.filter _).map _
  · exact nodup_keys_normalize hnd

/-- C7 witness: swapping two fields leaves the digest unchanged. -/
theorem C7_field_order_independence_witness :
    [(("a" : String), PyValue.str "1"), ("b", PyValue.str "2")].Perm
      [("b", PyValue.str "2"), ("a", PyValue.str "1")] ∧
    (recKeys [(("a" : String), PyValue.str "1"), ("b", PyValue.str "2")]).Nodup ∧
    generate_hash [("a", PyValue.str "1"), ("b", PyValue.str "2")]
      = generate_hash [("b", PyValue.str "2"), ("a", PyValue.str "1")] := by
  have hp : [(("a" : String), PyValue.str "1"), ("b", PyValue.str "2")].Perm
      [("b", PyValue.str "2"), ("a", PyValue.str "1")] :=
    List.Perm.swap ("b", PyValue.str "2") ("a", PyValue.str "1") []
  exact ⟨hp, by decide, C7_field_order_independence _ _ hp (by decide)⟩

/-- C8, counterexample: the claim quantifies over every absent field name, but
extending a record with `timestamp` mapped to the empty string does not change
the digest (`timestamp` is excluded from hashing), so the claim as stated is
false. -/
theorem C8_missing_vs_empty_counterexample :
    generate_hash [("name", PyValue.str "a")]
      = generate_hash [("name", PyValue.str "a"), ("timestamp", PyValue.str "")] := by decide

/-- C8 (amended): for every field name other than `timestamp` that is absent
from a record, adding it with the empty string as value changes the digest —
missing and empty-string fields are not equivalent. -/
theorem C8_missing_vs_empty_amended (r : Record) (f : String)
    (hf : f ∉ recKeys r) (hts : f ≠ "timestamp") :
    generate_hash r ≠ generate_hash (r ++ [(f, PyValue.str "")]) := by
  intro h
  apply hf
  have hmem : f ∈ recKeys (r ++ [(f, PyValue.str "")]) := by
    unfold recKeys
    rw [List.map_append]
    simp
  exact (hash_eq_key_mem h hts).mpr hmem

/-- C8 witness: adding an absent `email` field with empty value changes the
digest. -/
theorem C8_missing_vs_empty_witness :
    (("email" : String) ∉ recKeys [("name", PyValue.str "a")]) ∧
    ("email" : String) ≠ "timestamp" ∧
    generate_hash [("name", PyValue.str "a")]
      ≠ generate_hash ([("name", PyValue.str "a")] ++ [("email", PyValue.str "")]) :=
  ⟨by decide, by decide, C8_missing_vs_empty_amended _ _ (by decide) (by decide)⟩

/-- C9: `add_data` mutates the caller-supplied dict in place — it always
writes a `timestamp` key before checking, keeps every content field, and on
admission additionally writes a `unique_id` key; the copy appended to the
store is exactly that mutated dict, carrying both metadata fields alongside
the content fields. -/
theorem C9_in_place_mutation (st : SimState) (r : Record) (ts uid : String) :
    "timestamp" ∈ recKeys (add_data st r ts uid).2.2 ∧
    (∀ k ∈ recKeys r, k ∈ recKeys (add_data st r ts uid).2.2) ∧
    ((add_data st r ts uid).1 = AddResult.added uid →
      "unique_id" ∈ recKeys (add_data st r ts uid).2.2 ∧
      (add_data st r ts uid).2.1.data_store
        = st.data_store ++ [(add_data st r ts uid).2.2]) := by
  cases hscan : scanDup (dictSet r "timestamp" (.str ts)) st.data_store with
  | some e =>
    rw [add_data_of_dup hscan]
    refine ⟨mem_recKeys_dictSet_self, fun k hk => mem_recKeys_dictSet_of_mem hk, ?_⟩
    intro hcontra
    simp at hcontra
  | none =>
    rw [add_data_of_unique hscan]
    exact ⟨mem_recKeys_dictSet_of_mem mem_recKeys_dictSet_self,
      fun k hk => mem_recKeys_dictSet_of_mem (mem_recKeys_dictSet_of_mem hk),
      fun _ => ⟨mem_recKeys_dictSet_self, rfl⟩⟩

/-- C9 witness: a concrete admitted record carrying both metadata fields. -/
theorem C9_in_place_mutation_witness :
    (add_data SimState.init [("name", PyValue.str "a")] "t" "u").1 = AddResult.added "u" ∧
    "timestamp" ∈ recKeys (add_data SimState.init [("name", PyValue.str "a")] "t" "u").2.2 ∧
    "unique_id" ∈ recKeys (add_data SimState.init [("name", PyValue.str "a")] "t" "u").2.2 ∧
    (add_data SimState.init [("name", PyValue.str "a")] "t" "u").2.1.data_store
      = SimState.init.data_store
        ++ [(add_data SimState.init [("name", PyValue.str "a")] "t" "u").2.2] := by
  obtain ⟨h1, h2, h3⟩ := C9_in_place_mutation SimState.init [("name", PyValue.str "a")] "t" "u"
  have hres : (add_data SimState.init [("name", PyValue.str "a")] "t" "u").1
      = AddResult.added "u" := by decide
  exact ⟨hres, h1, (h3 hres).1, (h3 hres).2⟩

/-- C10: normalization coerces every scalar through string conversion, so two
records whose values differ only in scalar type but share the lowercased,
trimmed string form get equal digests and are classified as duplicates. -/
theorem C10_type_coercion (r r' : Record)
    (h : List.Forall₂ (fun p q => p.1 = q.1 ∧ normVal p.2 = normVal q.2) r r') :
    generate_hash r = generate_hash r' ∧ is_duplicate r r' = true := by
  have hh := generate_hash_congr (h.imp fun _ _ hpq => ⟨hpq.1, Or.inr hpq.2⟩)
  exact ⟨hh, by simp [is_duplicate, hh]⟩

/-- C10 witness: the number 30 vs the string `"30"`, and `True` vs `"True"`. -/
theorem C10_type_coercion_witness :
    List.Forall₂ (fun (p q : String × PyValue) => p.1 = q.1 ∧ normVal p.2 = normVal q.2)
      [("age", PyValue.int 30), ("vip", PyValue.bool true)]
      [("age", PyValue.str "30"), ("vip", PyValue.str "True")] ∧
    generate_hash [("age", PyValue.int 30), ("vip", PyValue.bool true)]
      = generate_hash [("age", PyValue.str "30"), ("vip", PyValue.str "True")] ∧
    is_duplicate [("age", PyValue.int 30), ("vip", PyValue.bool true)]
      [("age", PyValue.str "30"), ("vip", PyValue.str "True")] = true := by
  have hf : List.Forall₂
      (fun (p q : String × PyValue) => p.1 = q.1 ∧ normVal p.2 = normVal q.2)
      [("age", PyValue.int 30), ("vip", PyValue.bool true)]
      [("age", PyValue.str "30"), ("vip", PyValue.str "True")] :=
    List.Forall₂.cons ⟨rfl, by decide⟩ (List.Forall₂.cons ⟨rfl, by decide⟩ List.Forall₂.nil)
  obtain ⟨h1, h2⟩ := C10_type_coercion _ _ hf
  exact ⟨hf, h1, h2⟩
